import Mathlib

/-!
Shallow embedding of the pure text-processing core of the proposal-review
report generators (src/generate-html-review.py and src/generate-review.py).

Lines of text are modelled as `List Char`; the outputs of the external
version-control queries (already stripped by `run_git_command`, and empty
on command failure) are passed in as explicit arguments, since the shelling
out itself is external to the program logic under verification.
-/

/-- Python `s.split(sep)` on character lists: always returns a non-empty
list of fields; `"".split(sep) = [""]`. -/
def pySplitAll (sep : Char) : List Char → List (List Char)
  | [] => [[]]
  | c :: cs =>
    if c = sep then [] :: pySplitAll sep cs
    else
      match pySplitAll sep cs with
      | h :: t => (c :: h) :: t
      | [] => [[c]]

/-- Splitting a character list at the first occurrence of `sep`:
`none` when `sep` does not occur. -/
def splitFirst (sep : Char) : List Char → Option (List Char × List Char)
  | [] => none
  | c :: cs =>
    if c = sep then some ([], cs)
    else
      match splitFirst sep cs with
      | none => none
      | some (p, q) => some (c :: p, q)

/-- Python `s.split(sep, maxsplit)`: at most `n` splits, counted from the left. -/
def pySplitMax (sep : Char) : Nat → List Char → List (List Char)
  | 0, cs => [cs]
  | n + 1, cs =>
    match splitFirst sep cs with
    | none => [cs]
    | some (p, q) => p :: pySplitMax sep n q

/-- Python `str.split('\n')`. -/
def splitNl (cs : List Char) : List (List Char) :=
  pySplitAll '\n' cs

/-- Python `str.strip()`: drop leading and trailing whitespace. -/
def pyStrip (cs : List Char) : List Char :=
  ((cs.dropWhile Char.isWhitespace).reverse.dropWhile Char.isWhitespace).reverse

/-- The double-quote character. -/
def dquote : Char := Char.ofNat 34

/-- The single-quote (apostrophe) character. -/
def squote : Char := Char.ofNat 39

/-- `html.escape` on one character (Python's sequential `str.replace` chain
is equivalent to this character-wise map, since replacements are never
re-scanned for earlier patterns). -/
def escapeChar (c : Char) : List Char :=
  if c = '&' then "&amp;".data
  else if c = '<' then "&lt;".data
  else if c = '>' then "&gt;".data
  else if c = dquote then "&quot;".data
  else if c = squote then "&#x27;".data
  else [c]

/-- `html.escape(s, quote=True)` as used by the renderer. -/
def pyEscape : List Char → List Char
  | [] => []
  | c :: cs => escapeChar c ++ pyEscape cs

/-- Inverse of `pyEscape`: decode the five named escapes, copy everything else. -/
def pyUnescape : List Char → List Char
  | [] => []
  | c :: rest =>
    if c = '&' ∧ rest.take 4 = "amp;".data then '&' :: pyUnescape (rest.drop 4)
    else if c = '&' ∧ rest.take 3 = "lt;".data then '<' :: pyUnescape (rest.drop 3)
    else if c = '&' ∧ rest.take 3 = "gt;".data then '>' :: pyUnescape (rest.drop 3)
    else if c = '&' ∧ rest.take 5 = "quot;".data then dquote :: pyUnescape (rest.drop 5)
    else if c = '&' ∧ rest.take 5 = "#x27;".data then squote :: pyUnescape (rest.drop 5)
    else c :: pyUnescape rest
termination_by l => l.length
decreasing_by all_goals (simp [List.length_drop]; try omega)

/-- Maximal digit run at the head of the list, together with the remainder. -/
def takeDigits (cs : List Char) : List Char × List Char :=
  (cs.takeWhile Char.isDigit, cs.dropWhile Char.isDigit)

/-- Python `int` on a (non-empty) digit string. -/
def digitsToNat (ds : List Char) : Nat :=
  ds.foldl (fun acc c => acc * 10 + (c.toNat - 48)) 0

/-- Consume an optional comma followed by a digit run
(the `,?\d*` part of the hunk-header pattern). -/
def afterOptComma (cs : List Char) : List Char :=
  match cs with
  | ',' :: t => (takeDigits t).2
  | _ => cs

/-- Attempt to match the regex `@@ -(\d+),?\d* \+(\d+),?\d* @@` at the head
of the list, returning the two captured groups. For this pattern, greedy
matching with backtracking coincides with this deterministic maximal-munch
parse. -/
def matchHunkAt (cs : List Char) : Option (Nat × Nat) :=
  match cs with
  | '@' :: '@' :: ' ' :: '-' :: r =>
    let p1 := takeDigits r
    if p1.1 = [] then none
    else
      match afterOptComma p1.2 with
      | ' ' :: '+' :: r3 =>
        let p2 := takeDigits r3
        if p2.1 = [] then none
        else
          match afterOptComma p2.2 with
          | ' ' :: '@' :: '@' :: _ => some (digitsToNat p1.1, digitsToNat p2.1)
          | _ => none
      | _ => none
  | _ => none

/-- `re.search` of the hunk-header pattern: try every start position, left to
right, returning the leftmost match's captured groups. -/
def hunkSearch : List Char → Option (Nat × Nat)
  | [] => none
  | c :: cs =>
    match matchHunkAt (c :: cs) with
    | some r => some r
    | none => hunkSearch cs

/-- Match the regex `(\d+)\s*WORD` (with `WORD` = "insertion" or "deletion";
the regex's trailing optional `s` does not affect the captured group) at the
head of the list. -/
def matchNumWordAt (word : List Char) (cs : List Char) : Option Nat :=
  let p := takeDigits cs
  if p.1 = [] then none
  else
    let r2 := p.2.dropWhile Char.isWhitespace
    if word.isPrefixOf r2 then some (digitsToNat p.1) else none

/-- `re.search` of `(\d+)\s*WORD`: leftmost match. -/
def searchNumWord (word : List Char) : List Char → Option Nat
  | [] => none
  | c :: cs =>
    match matchNumWordAt word (c :: cs) with
    | some n => some n
    | none => searchNumWord word cs

/-- The classification of one diff line by the renderer's if-chain, in source
order: `line.startswith('+++')`, `line.startswith('---')`,
`line.startswith('@@')`, `line.startswith('+')`, `line.startswith('-')`,
otherwise context. -/
inductive LineClass where
  | filePlus
  | fileMinus
  | hunk
  | add
  | rem
  | ctx
deriving DecidableEq

/-- The branch dispatch of `format_diff_as_html`'s per-line if-chain
(`startswith(p)` is `take |p| = p`). -/
def classify (cs : List Char) : LineClass :=
  if cs.take 3 = ['+', '+', '+'] then .filePlus
  else if cs.take 3 = ['-', '-', '-'] then .fileMinus
  else if cs.take 2 = ['@', '@'] then .hunk
  else if cs.take 1 = ['+'] then .add
  else if cs.take 1 = ['-'] then .rem
  else .ctx

/-- The `+++` file-header branch of `format_diff_as_html`:
`current_file = line[4:].strip()`, the `/dev/null` sentinel becomes `None`,
then a leading `b/` and then a leading `a/` marker are stripped. -/
def extractFile (cs : List Char) : Option (List Char) :=
  let f0 := pyStrip (cs.drop 4)
  let f1 : Option (List Char) := if f0 = "/dev/null".data then none else some f0
  let f2 : Option (List Char) :=
    match f1 with
    | some s => if s ≠ [] ∧ s.take 2 = ['b', '/'] then some (s.drop 2) else some s
    | none => none
  match f2 with
  | some s => if s ≠ [] ∧ s.take 2 = ['a', '/'] then some (s.drop 2) else some s
  | none => none

/-- Python `f"{x}"` on an optional string: `None` prints as "None". -/
def pyStrOpt (o : Option (List Char)) : List Char :=
  match o with
  | none => "None".data
  | some s => s

/-- The deep-link URL built by the renderer:
`{repo_url}/blob/{commit_hash}[~1]/{current_file}#L{n}`. -/
def blobLink (ru : Option (List Char)) (hsh : List Char) (parent : Bool)
    (f : List Char) (n : Int) : List Char :=
  pyStrOpt ru ++ "/blob/".data ++ hsh ++ (if parent then "~1".data else []) ++
    "/".data ++ f ++ "#L".data ++ (toString n).data

/-- The renderer's loop state: current file (Python `None` or a string whose
emptiness matters for truthiness) and the two line-number counters. -/
structure DiffState where
  current_file : Option (List Char)
  old : Int
  new : Int
deriving DecidableEq

/-- The kind of one emitted output record (one `<div>` per input line). -/
inductive RecordKind where
  | fileHeader
  | hunkHeader
  | added
  | removed
  | context
deriving DecidableEq

/-- One output record of the diff renderer: the data interpolated into the
emitted `<div>` — its CSS class (kind), the displayed line number, the
escaped text content, and the deep-link URL (`none` models the empty
`github_link` string). -/
structure Record where
  kind : RecordKind
  num : Option Int
  text : List Char
  link : Option (List Char)
deriving DecidableEq

/-- One iteration of the `for line in lines` loop of `format_diff_as_html`. -/
def processLine (ru : Option (List Char)) (hsh : List Char) (st : DiffState)
    (cs : List Char) : DiffState × Record :=
  match classify cs with
  | .filePlus =>
    ({ st with current_file := extractFile cs },
     ⟨.fileHeader, none, pyEscape cs, none⟩)
  | .fileMinus =>
    (st, ⟨.fileHeader, none, pyEscape cs, none⟩)
  | .hunk =>
    let st' :=
      match hunkSearch cs with
      | some (o, n) => { st with old := (o : Int) - 1, new := (n : Int) - 1 }
      | none => st
    (st', ⟨.hunkHeader, none, pyEscape cs, none⟩)
  | .add =>
    let n := st.new + 1
    let link : Option (List Char) :=
      match st.current_file with
      | some f => if f ≠ [] ∧ 0 < n then some (blobLink ru hsh false f n) else none
      | none => none
    ({ st with new := n }, ⟨.added, some n, pyEscape (cs.drop 1), link⟩)
  | .rem =>
    let o := st.old + 1
    let link : Option (List Char) :=
      match st.current_file with
      | some f => if f ≠ [] ∧ 0 < o then some (blobLink ru hsh true f o) else none
      | none => none
    ({ st with old := o }, ⟨.removed, some o, pyEscape (cs.drop 1), link⟩)
  | .ctx =>
    let o := st.old + 1
    let n := st.new + 1
    let link : Option (List Char) :=
      match st.current_file with
      | some f => if f ≠ [] ∧ 0 < n then some (blobLink ru hsh false f n) else none
      | none => none
    ({ st with old := o, new := n }, ⟨.context, some n, pyEscape cs, link⟩)

/-- The whole loop of `format_diff_as_html`: thread the state through the
lines, collecting one record per line. -/
def processAll (ru : Option (List Char)) (hsh : List Char) (st : DiffState) :
    List (List Char) → DiffState × List Record
  | [] => (st, [])
  | l :: ls =>
    let pr := processLine ru hsh st l
    let rest := processAll ru hsh pr.1 ls
    (rest.1, pr.2 :: rest.2)

/-- `format_diff_as_html(diff_text, commit_hash, repo_url=None)`: empty diff
text yields no output; otherwise split on newlines and process each line with
counters starting at 0 and no current file. -/
def format_diff_as_html (diff_text commit_hash : String)
    (repo_url : Option String) : List Record :=
  if diff_text = "" then []
  else
    (processAll (repo_url.map String.data) commit_hash.data
      ⟨none, 0, 0⟩ (splitNl diff_text.data)).2

/-- The raw content whose escaping the renderer emits for a given line:
added/removed lines are emitted with the leading marker stripped
(`line[1:]`), all other lines verbatim. -/
def contentOf (cs : List Char) : List Char :=
  match classify cs with
  | .add => cs.drop 1
  | .rem => cs.drop 1
  | _ => cs

/-- `get_commit_type(message)`: lower-case, then literal prefix tests in
source order. -/
def get_commit_type (message : List Char) : String :=
  let m := message.map Char.toLower
  if ("feat".data).isPrefixOf m then "feat"
  else if ("fix".data).isPrefixOf m then "fix"
  else if ("chore".data).isPrefixOf m then "chore"
  else if ("docs".data).isPrefixOf m then "docs"
  else if ("refactor".data).isPrefixOf m then "refactor"
  else if ("test".data).isPrefixOf m then "test"
  else if ("style".data).isPrefixOf m then "style"
  else "other"

/-- The spec's wording of the classifier (for the refinement claim C5):
the priority-ordered prefix list, first match wins, anything else `other`. -/
def prefixOrder : List String := ["feat", "fix", "chore", "docs", "refactor", "test", "style"]

/-- First element of `ps` that is a prefix of `low`, else "other". -/
def firstMatch : List String → List Char → String
  | [], _ => "other"
  | p :: ps, low => if (p.data).isPrefixOf low then p else firstMatch ps low

/-- Commit-type classification as the spec words it. -/
def spec_classify (message : List Char) : String :=
  firstMatch prefixOrder (message.map Char.toLower)

/-- One parsed log entry of `get_commits` (hash, subject, author, date, type). -/
structure CommitRec where
  hash : List Char
  message : List Char
  author : List Char
  date : List Char
  type : String
deriving DecidableEq

/-- The parsing loop of `get_commits` applied to the (stripped) log output:
split into lines, skip blank lines, `line.split('|', 3)`, skip lines with
fewer than four fields, classify the subject. -/
def get_commits_parse (output : List Char) : List CommitRec :=
  (splitNl output).filterMap fun line =>
    if pyStrip line ≠ [] then
      let parts := pySplitMax '|' 3 line
      if parts.length ≥ 4 then
        some ⟨parts.getD 0 [], parts.getD 1 [], parts.getD 2 [], parts.getD 3 [],
              get_commit_type (parts.getD 1 [])⟩
      else none
    else none

/-- The three textual query outputs consumed by `get_commit_stats`, as
returned by `run_git_command` (stripped; empty string on failure). -/
structure QueryOutputs where
  countOut : List Char
  namesOut : List Char
  statOut : List Char
deriving DecidableEq

/-- The dictionary returned by `get_commit_stats`. Note the `commits` entry
is the raw textual output of the count query, never converted to a number. -/
structure RangeStats where
  commits : List Char
  files : Nat
  lines_added : Nat
  lines_removed : Nat
  file_list : List (List Char)
deriving DecidableEq

/-- The pure computation of `get_commit_stats` over the query outputs:
file list from the name-only query; insertions/deletions parsed from the
last line of the stat query, but only when that last line contains a pipe,
and then only from the text after its first pipe. -/
def get_commit_stats (q : QueryOutputs) : RangeStats :=
  let files := (splitNl q.namesOut).filter (fun f => pyStrip f ≠ [])
  let parsed : Nat × Nat :=
    if q.statOut ≠ [] then
      let lines := splitNl q.statOut
      if lines ≠ [] then
        let last := lines.getLastD []
        if last.contains '|' then
          let parts := pySplitAll '|' last
          if parts.length ≥ 2 then
            let changes := pyStrip (parts.getD 1 [])
            if changes.contains '+' ∧ changes.contains '-' then
              ((searchNumWord ("insertion".data) changes).getD 0,
               (searchNumWord ("deletion".data) changes).getD 0)
            else (0, 0)
          else (0, 0)
        else (0, 0)
      else (0, 0)
    else (0, 0)
  ⟨q.countOut, files.length, parsed.1, parsed.2, files⟩

/-! ## Helper lemmas -/

/-- The renderer emits exactly one record per input line. -/
theorem processAll_length (ru : Option (List Char)) (hsh : List Char) :
    ∀ (ls : List (List Char)) (st : DiffState),
      ((processAll ru hsh st ls).2).length = ls.length := by
  intro ls
  induction ls with
  | nil => intro st; rfl
  | cons l t ih => intro st; simp [processAll, ih]

/-- Only a line whose first three characters are `+++` dispatches to the
plus-file-header branch. -/
theorem classify_eq_filePlus {cs : List Char} (h : classify cs = .filePlus) :
    cs.take 3 = ['+', '+', '+'] := by
  unfold classify at h
  split_ifs at h with h1 h2 h3 h4 h5 <;> simp_all

/-- With no current file, any line that is not a `+++` header keeps the
current file unset and is emitted without a link. -/
theorem processLine_preserve (ru : Option (List Char)) (hsh : List Char)
    (st : DiffState) (cs : List Char) (hcf : st.current_file = none)
    (hl : cs.take 3 ≠ ['+', '+', '+']) :
    ((processLine ru hsh st cs).1).current_file = none ∧
    ((processLine ru hsh st cs).2).link = none := by
  cases hc : classify cs with
  | filePlus => exact absurd (classify_eq_filePlus hc) hl
  | fileMinus => simp [processLine, hc, hcf]
  | hunk =>
    cases hs : hunkSearch cs with
    | none => simp [processLine, hc, hs, hcf]
    | some p => cases p with | mk o n => simp [processLine, hc, hs, hcf]
  | add => simp [processLine, hc, hcf]
  | rem => simp [processLine, hc, hcf]
  | ctx => simp [processLine, hc, hcf]

/-- Iterated form of `processLine_preserve` over a block of lines. -/
theorem processAll_preserve (ru : Option (List Char)) (hsh : List Char) :
    ∀ (ls : List (List Char)) (st : DiffState), st.current_file = none →
      (∀ l ∈ ls, l.take 3 ≠ ['+', '+', '+']) →
      ((processAll ru hsh st ls).1).current_file = none ∧
      ∀ r ∈ (processAll ru hsh st ls).2, r.link = none := by
  intro ls
  induction ls with
  | nil =>
    intro st hcf _
    exact ⟨hcf, by intro r hr; simp [processAll] at hr⟩
  | cons l t ih =>
    intro st hcf hall
    have hstep := processLine_preserve ru hsh st l hcf (hall l (List.mem_cons_self l t))
    have iht := ih (processLine ru hsh st l).1 hstep.1
      (fun x hx => hall x (List.mem_cons_of_mem l hx))
    constructor
    · simpa [processAll] using iht.1
    · intro r hr
      simp only [processAll, List.mem_cons] at hr
      rcases hr with rfl | hr
      · exact hstep.2
      · exact iht.2 r hr

/-- Decoding step for an emitted `&amp;`. -/
theorem unesc_amp (X : List Char) :
    pyUnescape ('&' :: 'a' :: 'm' :: 'p' :: ';' :: X) = '&' :: pyUnescape X := by
  rw [pyUnescape]
  split_ifs with h1 h2 h3 h4 h5
  · rfl
  all_goals exact absurd ⟨rfl, rfl⟩ h1

/-- Decoding step for an emitted `&lt;`. -/
theorem unesc_lt (X : List Char) :
    pyUnescape ('&' :: 'l' :: 't' :: ';' :: X) = '<' :: pyUnescape X := by
  rw [pyUnescape]
  split_ifs with h1 h2 h3 h4 h5
  · exfalso; have h := h1.2; simp [List.take] at h
  · rfl
  all_goals exact absurd ⟨rfl, rfl⟩ h2

/-- Decoding step for an emitted `&gt;`. -/
theorem unesc_gt (X : List Char) :
    pyUnescape ('&' :: 'g' :: 't' :: ';' :: X) = '>' :: pyUnescape X := by
  rw [pyUnescape]
  split_ifs with h1 h2 h3 h4 h5
  · exfalso; have h := h1.2; simp [List.take] at h
  · exfalso; have h := h2.2; simp [List.take] at h
  · rfl
  all_goals exact absurd ⟨rfl, rfl⟩ h3

/-- Decoding step for an emitted `&quot;`. -/
theorem unesc_quot (X : List Char) :
    pyUnescape ('&' :: 'q' :: 'u' :: 'o' :: 't' :: ';' :: X) = dquote :: pyUnescape X := by
  rw [pyUnescape]
  split_ifs with h1 h2 h3 h4 h5
  · exfalso; have h := h1.2; simp [List.take] at h
  · exfalso; have h := h2.2; simp [List.take] at h
  · exfalso; have h := h3.2; simp [List.take] at h
  · rfl
  all_goals exact absurd ⟨rfl, rfl⟩ h4

/-- Decoding step for an emitted `&#x27;`. -/
theorem unesc_x27 (X : List Char) :
    pyUnescape ('&' :: '#' :: 'x' :: '2' :: '7' :: ';' :: X) = squote :: pyUnescape X := by
  rw [pyUnescape]
  split_ifs with h1 h2 h3 h4 h5
  · exfalso; have h := h1.2; simp [List.take] at h
  · exfalso; have h := h2.2; simp [List.take] at h
  · exfalso; have h := h3.2; simp [List.take] at h
  · exfalso; have h := h4.2; simp [List.take] at h
  · rfl
  · exact absurd ⟨rfl, rfl⟩ h5

/-- Decoding step for an unescaped character. -/
theorem unesc_plain {c : Char} (X : List Char) (h : c ≠ '&') :
    pyUnescape (c :: X) = c :: pyUnescape X := by
  rw [pyUnescape]
  split_ifs with h1 h2 h3 h4 h5
  · exact absurd h1.1 h
  · exact absurd h2.1 h
  · exact absurd h3.1 h
  · exact absurd h4.1 h
  · exact absurd h5.1 h
  · rfl

/-- Un-escaping inverts the renderer's escaping. -/
theorem pyUnescape_pyEscape (l : List Char) : pyUnescape (pyEscape l) = l := by
  induction l with
  | nil => rw [show pyEscape [] = [] from rfl, pyUnescape]
  | cons c cs ih =>
    show pyUnescape (escapeChar c ++ pyEscape cs) = c :: cs
    by_cases h1 : c = '&'
    · subst h1
      show pyUnescape ('&' :: 'a' :: 'm' :: 'p' :: ';' :: pyEscape cs) = '&' :: cs
      rw [unesc_amp, ih]
    by_cases h2 : c = '<'
    · subst h2
      show pyUnescape ('&' :: 'l' :: 't' :: ';' :: pyEscape cs) = '<' :: cs
      rw [unesc_lt, ih]
    by_cases h3 : c = '>'
    · subst h3
      show pyUnescape ('&' :: 'g' :: 't' :: ';' :: pyEscape cs) = '>' :: cs
      rw [unesc_gt, ih]
    by_cases h4 : c = dquote
    · subst h4
      show pyUnescape ('&' :: 'q' :: 'u' :: 'o' :: 't' :: ';' :: pyEscape cs) = dquote :: cs
      rw [unesc_quot, ih]
    by_cases h5 : c = squote
    · subst h5
      show pyUnescape ('&' :: '#' :: 'x' :: '2' :: '7' :: ';' :: pyEscape cs) = squote :: cs
      rw [unesc_x27, ih]
    · have he : escapeChar c = [c] := by simp [escapeChar, h1, h2, h3, h4, h5]
      rw [he]
      show pyUnescape (c :: pyEscape cs) = c :: cs
      rw [unesc_plain _ h1, ih]

/-- Splitting at the first separator after a separator-free block. -/
theorem splitFirst_append {sep : Char} {ys : List Char} :
    ∀ {xs : List Char}, sep ∉ xs → splitFirst sep (xs ++ sep :: ys) = some (xs, ys) := by
  intro xs
  induction xs with
  | nil => intro _; simp [splitFirst]
  | cons a t ih =>
    intro h
    have ha : ¬(a = sep) := fun e => h (e ▸ List.mem_cons_self a t)
    have ih' := ih (fun hm => h (List.mem_cons_of_mem a hm))
    simp [splitFirst, ha, ih']

/-- A separator-free list splits into a single field. -/
theorem pySplitAll_no_sep {sep : Char} :
    ∀ {l : List Char}, sep ∉ l → pySplitAll sep l = [l] := by
  intro l
  induction l with
  | nil => intro _; rfl
  | cons c t ih =>
    intro h
    have hc : ¬(c = sep) := fun e => h (e ▸ List.mem_cons_self c t)
    have ih' := ih (fun hm => h (List.mem_cons_of_mem c hm))
    simp [pySplitAll, hc, ih']

/-- A non-whitespace member survives `dropWhile isWhitespace`. -/
theorem mem_dropWhile_not_ws {c : Char} (hw : c.isWhitespace = false) :
    ∀ {l : List Char}, c ∈ l → c ∈ l.dropWhile Char.isWhitespace := by
  intro l
  induction l with
  | nil => intro h; cases h
  | cons a t ih =>
    intro h
    rcases List.mem_cons.mp h with rfl | hm
    · simp [List.dropWhile_cons, hw]
    · by_cases ha : Char.isWhitespace a
      · simpa [List.dropWhile_cons, ha] using ih hm
      · simp [List.dropWhile_cons, ha]
        exact Or.inr hm

/-- A list containing a non-whitespace character does not strip to empty. -/
theorem pyStrip_ne_nil {c : Char} {l : List Char} (hc : c ∈ l)
    (hw : c.isWhitespace = false) : pyStrip l ≠ [] := by
  intro h
  have h1 : c ∈ l.dropWhile Char.isWhitespace := mem_dropWhile_not_ws hw hc
  have h2 : c ∈ (l.dropWhile Char.isWhitespace).reverse := List.mem_reverse.mpr h1
  have h3 : c ∈ (l.dropWhile Char.isWhitespace).reverse.dropWhile Char.isWhitespace :=
    mem_dropWhile_not_ws hw h2
  have h4 := List.ne_nil_of_mem h3
  unfold pyStrip at h
  rw [List.reverse_eq_nil_iff] at h
  exact h4 h

/-! ## Claim theorems -/

/-- Claim C5: commit type classification lower-cases the subject and matches
its prefix literally against feat, fix, chore, docs, refactor, test, style in
that priority order, first match wins, anything else classifying as other;
it is a prefix test, not a word-boundary test. In particular "Fixes: null
pointer" classifies as fix, "feature flag" as feat, "featuring x" as feat,
and "hello world" as other. -/
theorem claim_C5 :
    (∀ m : List Char, get_commit_type m = spec_classify m) ∧
    get_commit_type ("Fixes: null pointer".data) = "fix" ∧
    get_commit_type ("feature flag".data) = "feat" ∧
    get_commit_type ("featuring x".data) = "feat" ∧
    get_commit_type ("hello world".data) = "other" := by
  refine ⟨fun m => ?_, by decide, by decide, by decide, by decide⟩
  rfl

/-- Claim C9: the text content the renderer emits for any line is the escaped
form of that line's raw content (the line itself, or the line with its
leading marker stripped for added/removed lines), and un-escaping it
reproduces that raw content exactly; escaping is a reversible (hence
injective) encoding. -/
theorem claim_C9 :
    (∀ ru hsh st cs, ((processLine ru hsh st cs).2).text = pyEscape (contentOf cs) ∧
      pyUnescape (((processLine ru hsh st cs).2).text) = contentOf cs) ∧
    (∀ l : List Char, pyUnescape (pyEscape l) = l) := by
  constructor
  · intro ru hsh st cs
    have htext : ((processLine ru hsh st cs).2).text = pyEscape (contentOf cs) := by
      cases hc : classify cs with
      | filePlus => simp [processLine, contentOf, hc]
      | fileMinus => simp [processLine, contentOf, hc]
      | hunk =>
        cases hs : hunkSearch cs with
        | none => simp [processLine, contentOf, hc, hs]
        | some p => cases p with | mk o n => simp [processLine, contentOf, hc, hs]
      | add => simp [processLine, contentOf, hc]
      | rem => simp [processLine, contentOf, hc]
      | ctx => simp [processLine, contentOf, hc]
    exact ⟨htext, by rw [htext, pyUnescape_pyEscape]⟩
  · exact pyUnescape_pyEscape

/-- Claim C10: the renderer emits exactly one output record per input line of
the newline-split diff text, in input order, and returns no records for the
empty diff text. -/
theorem claim_C10 :
    (∀ (dt ch : String) (ru : Option String), dt ≠ "" →
      (format_diff_as_html dt ch ru).length = (splitNl dt.data).length) ∧
    (∀ (ch : String) (ru : Option String), format_diff_as_html "" ch ru = []) ∧
    (∀ ru hsh st l ls, (processAll ru hsh st (l :: ls)).2 =
      (processLine ru hsh st l).2 ::
        (processAll ru hsh ((processLine ru hsh st l).1) ls).2) := by
  refine ⟨?_, ?_, ?_⟩
  · intro dt ch ru h
    unfold format_diff_as_html
    rw [if_neg h]
    exact processAll_length _ _ _ _
  · intro ch ru; rfl
  · intro ru hsh st l ls; rfl

/-- Witness for C10 at a concrete two-line diff text. -/
theorem claim_C10_witness :
    ("ab\ncd" : String) ≠ "" ∧
    (format_diff_as_html "ab\ncd" "h" none).length = (splitNl ("ab\ncd".data)).length :=
  ⟨by decide, claim_C10.1 "ab\ncd" "h" none (by decide)⟩

/-- Claim C1: the renderer keeps an old-side and a new-side counter; a line
dispatched as a hunk header whose text matches the hunk pattern with groups
OLD and NEW sets the counters to OLD-1 and NEW-1; an added line increments
and displays the new-side counter; a removed line increments and displays the
old-side counter; a context line increments both and displays the new-side
counter. In particular, for the diff with single hunk header
"@@ -10,5 +20,7 @@" followed by one context, one removed and one added line,
the context line is numbered new-side 20 with the old-side counter at 10,
the removed line old-side 11, and the added line new-side 21. -/
theorem claim_C1 :
    (∀ ru hsh st cs o n, classify cs = .hunk → hunkSearch cs = some (o, n) →
      processLine ru hsh st cs =
        ({ st with old := (o : Int) - 1, new := (n : Int) - 1 },
         ⟨.hunkHeader, none, pyEscape cs, none⟩)) ∧
    (∀ ru hsh st cs, classify cs = .add →
      (processLine ru hsh st cs).1 = { st with new := st.new + 1 } ∧
      ((processLine ru hsh st cs).2).num = some (st.new + 1) ∧
      ((processLine ru hsh st cs).2).kind = .added) ∧
    (∀ ru hsh st cs, classify cs = .rem →
      (processLine ru hsh st cs).1 = { st with old := st.old + 1 } ∧
      ((processLine ru hsh st cs).2).num = some (st.old + 1) ∧
      ((processLine ru hsh st cs).2).kind = .removed) ∧
    (∀ ru hsh st cs, classify cs = .ctx →
      (processLine ru hsh st cs).1 = { st with old := st.old + 1, new := st.new + 1 } ∧
      ((processLine ru hsh st cs).2).num = some (st.new + 1) ∧
      ((processLine ru hsh st cs).2).kind = .context) ∧
    ((format_diff_as_html "@@ -10,5 +20,7 @@\n ctx\n-rm\n+add" "h" none).map Record.num =
        [none, some 20, some 11, some 21] ∧
      (processAll none ("h".data) ⟨none, 0, 0⟩
        ["@@ -10,5 +20,7 @@".data, " ctx".data]).1 = ⟨none, 10, 20⟩) := by
  refine ⟨?_, ?_, ?_, ?_, by decide, by decide⟩
  · intro ru hsh st cs o n hc hs
    simp [processLine, hc, hs]
  · intro ru hsh st cs hc
    refine ⟨?_, ?_, ?_⟩ <;> simp [processLine, hc]
  · intro ru hsh st cs hc
    refine ⟨?_, ?_, ?_⟩ <;> simp [processLine, hc]
  · intro ru hsh st cs hc
    refine ⟨?_, ?_, ?_⟩ <;> simp [processLine, hc]

/-- Witness for C1: the step behaviors applied at concrete lines and a
concrete state with old counter 5 and new counter 9. -/
theorem claim_C1_witness :
    (classify ("@@ -3,2 +7,2 @@".data) = .hunk ∧
      hunkSearch ("@@ -3,2 +7,2 @@".data) = some (3, 7) ∧
      processLine none ("h".data) ⟨none, 5, 9⟩ ("@@ -3,2 +7,2 @@".data) =
        (⟨none, 2, 6⟩, ⟨.hunkHeader, none, pyEscape ("@@ -3,2 +7,2 @@".data), none⟩)) ∧
    (classify ("+x".data) = .add ∧
      ((processLine none ("h".data) ⟨none, 5, 9⟩ ("+x".data)).2).num = some 10) ∧
    (classify ("-x".data) = .rem ∧
      ((processLine none ("h".data) ⟨none, 5, 9⟩ ("-x".data)).2).num = some 6) ∧
    (classify (" x".data) = .ctx ∧
      (processLine none ("h".data) ⟨none, 5, 9⟩ (" x".data)).1 = ⟨none, 6, 10⟩) := by
  refine ⟨⟨by decide, by decide, ?_⟩, ⟨by decide, ?_⟩, ⟨by decide, ?_⟩, ⟨by decide, ?_⟩⟩
  · exact (claim_C1.1 none ("h".data) ⟨none, 5, 9⟩ _ 3 7 (by decide) (by decide)).trans
      (by decide)
  · exact ((claim_C1.2.1 none ("h".data) ⟨none, 5, 9⟩ ("+x".data) (by decide)).2.1).trans
      (by decide)
  · exact ((claim_C1.2.2.1 none ("h".data) ⟨none, 5, 9⟩ ("-x".data) (by decide)).2.1).trans
      (by decide)
  · exact ((claim_C1.2.2.2.1 none ("h".data) ⟨none, 5, 9⟩ (" x".data) (by decide)).1).trans
      (by decide)

/-- Claim C6: a `+++` file header whose extracted path is the null-device
sentinel `/dev/null` makes the current file unset, and as long as no later
`+++` header appears, every subsequent line is emitted with no deep link and
the current file stays unset. -/
theorem claim_C6 :
    (∀ ru hsh st rest, pyStrip (('+' :: '+' :: '+' :: rest).drop 4) = "/dev/null".data →
      ((processLine ru hsh st ('+' :: '+' :: '+' :: rest)).1).current_file = none) ∧
    (∀ ru hsh st ls, st.current_file = none →
      (∀ l ∈ ls, l.take 3 ≠ ['+', '+', '+']) →
      ((processAll ru hsh st ls).1).current_file = none ∧
      ∀ r ∈ (processAll ru hsh st ls).2, r.link = none) := by
  constructor
  · intro ru hsh st rest h
    have hc : classify ('+' :: '+' :: '+' :: rest) = .filePlus := by
      simp [classify]
    simp only [List.drop_succ_cons, List.drop_one] at h
    simp [processLine, hc, extractFile, h]
  · intro ru hsh st ls hcf hall
    exact processAll_preserve ru hsh ls st hcf hall

/-- Witness for C6: a concrete `+++ /dev/null` header unsets the current file,
and a concrete two-line block after it emits no links. -/
theorem claim_C6_witness :
    (pyStrip (('+' :: '+' :: '+' :: (" /dev/null".data)).drop 4) = "/dev/null".data ∧
      ((processLine none ("h".data) ⟨some ("x".data), 3, 4⟩
        ('+' :: '+' :: '+' :: (" /dev/null".data))).1).current_file = none) ∧
    ((∀ l ∈ (["-x".data, " y".data] : List (List Char)), l.take 3 ≠ ['+', '+', '+']) ∧
      ∀ r ∈ (processAll none ("h".data) ⟨none, 0, 0⟩ (["-x".data, " y".data])).2,
        r.link = none) := by
  refine ⟨⟨by decide, ?_⟩, ⟨by decide, ?_⟩⟩
  · exact claim_C6.1 none ("h".data) ⟨some ("x".data), 3, 4⟩ (" /dev/null".data) (by decide)
  · exact (claim_C6.2 none ("h".data) ⟨none, 0, 0⟩ (["-x".data, " y".data]) rfl
      (by decide)).2

/-- Claim C7: a line beginning with `@@` on which the hunk-header pattern
search fails leaves the state (both counters and the current file) unchanged
and still emits a hunk-header record carrying the escaped line text. -/
theorem claim_C7 :
    ∀ ru hsh st cs, cs.take 2 = ['@', '@'] → hunkSearch cs = none →
      processLine ru hsh st cs = (st, ⟨.hunkHeader, none, pyEscape cs, none⟩) := by
  intro ru hsh st cs h2 hs
  obtain ⟨t, rfl⟩ : ∃ t, cs = '@' :: '@' :: t := by
    cases cs with
    | nil => simp at h2
    | cons a u =>
      cases u with
      | nil => simp at h2
      | cons b v =>
        simp [List.take] at h2
        exact ⟨v, by rw [h2.1, h2.2]⟩
  have hc : classify ('@' :: '@' :: t) = .hunk := by
    simp [classify]
  simp [processLine, hc, hs]

/-- Witness for C7 at the concrete malformed header line "@@ malformed". -/
theorem claim_C7_witness :
    ("@@ malformed".data).take 2 = ['@', '@'] ∧
    hunkSearch ("@@ malformed".data) = none ∧
    processLine none ("h".data) ⟨some ("f".data), 3, 5⟩ ("@@ malformed".data) =
      (⟨some ("f".data), 3, 5⟩,
       ⟨.hunkHeader, none, pyEscape ("@@ malformed".data), none⟩) :=
  ⟨by decide, by decide,
   claim_C7 none ("h".data) ⟨some ("f".data), 3, 5⟩ ("@@ malformed".data)
     (by decide) (by decide)⟩

/-- Claim C2 (evaluation at the failing input): on a stat query whose final
summary line is "3 files changed, 12 insertions(+), 4 deletions(-)" the
collector yields lines-added 0 and lines-removed 0 — because it only attempts
extraction when the last line contains a pipe, and then only on the text
after the first pipe — even though the extraction regex itself finds 12 on
that summary text; the same holds when a per-file pipe line precedes the
summary. -/
theorem claim_C2_eval :
    (get_commit_stats ⟨"0".data, [],
        "3 files changed, 12 insertions(+), 4 deletions(-)".data⟩).lines_added = 0 ∧
    (get_commit_stats ⟨"0".data, [],
        "3 files changed, 12 insertions(+), 4 deletions(-)".data⟩).lines_removed = 0 ∧
    (get_commit_stats ⟨"3".data, [],
        " a.py | 16 +++++-\n 3 files changed, 12 insertions(+), 4 deletions(-)".data⟩).lines_added = 0 ∧
    (get_commit_stats ⟨"3".data, [],
        " a.py | 16 +++++-\n 3 files changed, 12 insertions(+), 4 deletions(-)".data⟩).lines_removed = 0 ∧
    searchNumWord ("insertion".data)
        ("3 files changed, 12 insertions(+), 4 deletions(-)".data) = some 12 ∧
    searchNumWord ("deletion".data)
        ("3 files changed, 12 insertions(+), 4 deletions(-)".data) = some 4 := by
  refine ⟨by decide, by decide, by decide, by decide, by decide, by decide⟩

/-- Claim C3 (evaluation at the failing input): with the base URL argument
absent, the added-line record still carries a deep link, with the Python
interpolation of None as its base: "None/blob/abc/foo.py#L1". -/
theorem claim_C3_eval :
    ((format_diff_as_html "+++ b/foo.py\n@@ -1,1 +1,1 @@\n+x" "abc" none).getD 2
        ⟨.context, none, [], none⟩).link = some ("None/blob/abc/foo.py#L1".data) := by
  decide

/-- Claim C8 counterexample: when all three queries return empty output, the
collector's commit-count entry is the empty string, not the textual zero the
claim asserts. -/
theorem claim_C8_counterexample :
    ¬((get_commit_stats ⟨[], [], []⟩).commits = "0".data) := by decide

/-- Claim C8 (amended): when the count, name-listing, and stat queries all
return empty output, the collector returns the raw empty string as the commit
count together with file count zero, lines-added zero, lines-removed zero,
and an empty file list, without raising. -/
theorem claim_C8_amended :
    get_commit_stats ⟨[], [], []⟩ = ⟨[], 0, 0, 0, []⟩ := by decide

/-- Claim C4 counterexample: for hash "h", subject "a|b", author "au", date
"d", the log line "h|a|b|au|d" parses to a record whose subject field is "a"
— not the original subject — with the author and date fields shifted. -/
theorem claim_C4_counterexample :
    get_commits_parse ("h|a|b|au|d".data) =
      [⟨"h".data, "a".data, "b".data, "au|d".data, "other"⟩] ∧
    ¬(("a".data : List Char) = "a|b".data) := by decide

/-- Claim C4 (amended): splitting on the first three pipes yields a record
with the original hash, subject, author, and date only when all four fields —
the subject included — are pipe-free (and newline-free); a pipe inside the
subject instead truncates the subject at that pipe and shifts the author and
date fields. -/
theorem claim_C4_amended :
    ∀ hsh subj auth dt : List Char,
      '|' ∉ hsh → '|' ∉ subj → '|' ∉ auth → '|' ∉ dt →
      '\n' ∉ hsh → '\n' ∉ subj → '\n' ∉ auth → '\n' ∉ dt →
      get_commits_parse (hsh ++ '|' :: (subj ++ '|' :: (auth ++ '|' :: dt))) =
        [⟨hsh, subj, auth, dt, get_commit_type subj⟩] := by
  intro hsh subj auth dt hp1 hp2 hp3 hp4 hn1 hn2 hn3 hn4
  have hnl : ('\n' : Char) ∉ hsh ++ '|' :: (subj ++ '|' :: (auth ++ '|' :: dt)) := by
    intro h
    rcases List.mem_append.mp h with h | h
    · exact hn1 h
    rcases List.mem_cons.mp h with h | h
    · exact absurd h (by decide)
    rcases List.mem_append.mp h with h | h
    · exact hn2 h
    rcases List.mem_cons.mp h with h | h
    · exact absurd h (by decide)
    rcases List.mem_append.mp h with h | h
    · exact hn3 h
    rcases List.mem_cons.mp h with h | h
    · exact absurd h (by decide)
    · exact hn4 h
  have hsplit : splitNl (hsh ++ '|' :: (subj ++ '|' :: (auth ++ '|' :: dt))) =
      [hsh ++ '|' :: (subj ++ '|' :: (auth ++ '|' :: dt))] := pySplitAll_no_sep hnl
  have hpipe : ('|' : Char) ∈ hsh ++ '|' :: (subj ++ '|' :: (auth ++ '|' :: dt)) :=
    List.mem_append_right _ (List.mem_cons_self _ _)
  have hstrip := pyStrip_ne_nil hpipe (by decide)
  have hparts : pySplitMax '|' 3 (hsh ++ '|' :: (subj ++ '|' :: (auth ++ '|' :: dt))) =
      [hsh, subj, auth, dt] := by
    simp [pySplitMax, splitFirst_append hp1, splitFirst_append hp2, splitFirst_append hp3]
  unfold get_commits_parse
  rw [hsplit]
  simp [List.filterMap, hstrip, hparts]

/-- Witness for the amended C4 at concrete pipe-free fields. -/
theorem claim_C4_witness :
    get_commits_parse (("h".data) ++ '|' :: (("s".data) ++ '|' :: (("a".data) ++ '|' :: ("d".data)))) =
      [⟨"h".data, "s".data, "a".data, "d".data, get_commit_type ("s".data)⟩] :=
  claim_C4_amended ("h".data) ("s".data) ("a".data) ("d".data)
    (by decide) (by decide) (by decide) (by decide)
    (by decide) (by decide) (by decide) (by decide)
